import Mathlib

/-!
Shallow embedding of the FlowSeer/service lifecycle-orchestration engine
(src/run.go, src/handle.go, src/service.go, src/env.go) together with
theorems settling the specification claims about it.

Modelling conventions:
* Go `error` values are `Option Err` (`none` = nil).
* `fail.WithAssociated` (external FlowSeer/fail library) attaches a
  secondary error to a primary one without replacing it; modelled by
  `withAssociated` below, following the spec's "Associated error" glossary
  entry and §7 propagation policy.
* Blocking is explicit: an operation that can block forever returns
  `Outcome.blocked` instead of a value.
* Goroutine interleavings are modelled sequentially; `sync.Once` is the
  `shutdownConsumed` flag, a closed channel is the `exitClosed` flag.
* Service callbacks are data: the `Option Err` each callback returns.
  Side effects of callbacks are tracked as invocation flags on results.
-/

namespace FlowSeer

/-- Lifecycle phase of one service run (the `Phase` enumeration,
declared with `PhaseWaiting` as the zero value). -/
inductive Phase where
  | waiting
  | initializing
  | running
  | shuttingDown
  | finished
  | failed
deriving DecidableEq, Repr

/-- Numeric position of a phase in the intended traversal order. -/
def Phase.idx : Phase → Nat
  | .waiting => 0
  | .initializing => 1
  | .running => 2
  | .shuttingDown => 3
  | .finished => 4
  | .failed => 4

/-- Whether a phase is one of the two terminal phases. -/
def Phase.isTerminal : Phase → Bool
  | .finished => true
  | .failed => true
  | _ => false

/-- Error values: a leaf message (`fail.Msg` / `fail.New`) or a primary
error with an associated secondary error attached
(`fail.WithAssociated` with both arguments non-nil). -/
inductive Err where
  | msg : String → Err
  | withAssoc : Err → Err → Err
deriving DecidableEq, Repr

/-- Model of `fail.WithAssociated(err, associated)` on Go errors that may
be nil: a nil primary yields the associated error, a nil associated error
leaves the primary unchanged, and two non-nil errors produce a combined
error whose primary part is the first argument. -/
def withAssociated : Option Err → Option Err → Option Err
  | none, s => s
  | some e, none => some e
  | some e, some s => some (.withAssoc e s)

/-- Result of an operation that can block forever: either a value or a
permanent block (the operation never returns). -/
inductive Outcome (α : Type) where
  | done : α → Outcome α
  | blocked
deriving DecidableEq, Repr

/-- A service, reduced to the results its three lifecycle callbacks
return (`Initialize`, `Run`, `Shutdown`; `nil` = `none`). Identity
metadata (name/namespace/version) plays no role in the claims and is
omitted. -/
structure Service where
  Initialize : Option Err
  Run : Option Err
  Shutdown : Option Err
deriving DecidableEq, Repr

/-- State of a `Handle` (src/handle.go): current phase, run error,
shutdown error, the `sync.Once` state of the shutdown gate, whether the
`exitSig` channel has been closed, and the captured shutdown callback
(`none` models a nil `shutdownFunc`, whose invocation would panic). -/
structure Handle where
  phase : Phase
  err : Option Err
  shutdownErr : Option Err
  shutdownConsumed : Bool
  exitClosed : Bool
  shutdownFunc : Option (Option Err)
deriving DecidableEq, Repr

/-- `Handle.Wait`: receive from `exitSig`, then return
`fail.WithAssociated(h.Error(), h.getShutdownErr())`. If the channel is
not closed the receive blocks forever. -/
def Handle.Wait (h : Handle) : Outcome (Option Err) :=
  if h.exitClosed then .done (withAssociated h.err h.shutdownErr) else .blocked

/-- `Handle.Shutdown`: run the shutdown callback through the
`shutdownOnce` gate (recording its error only when non-nil), then return
`h.Wait()`. Yields the updated handle, whether the callback was invoked,
and the value returned (or `blocked`). The result is `none` exactly when
the gate is open but `shutdownFunc` is nil, which would panic in Go. -/
def Handle.Shutdown (h : Handle) : Option (Handle × Bool × Outcome (Option Err)) :=
  if h.shutdownConsumed then
    some (h, false, h.Wait)
  else
    match h.shutdownFunc with
    | none => none
    | some r =>
      let h' : Handle :=
        { h with
          shutdownConsumed := true
          shutdownErr := match r with | some e => some e | none => h.shutdownErr }
      some (h', true, h'.Wait)

/-- `Handle.setStopped`: record the lifecycle error and close `exitSig`. -/
def Handle.setStopped (h : Handle) (v : Option Err) : Handle :=
  { h with err := v, exitClosed := true }

/-- `createHandle`: fresh handle for a run; every omitted Go struct field
takes its zero value (phase `Waiting`, nil errors, open gate, open
channel) and `shutdownFunc` captures the service's `Shutdown` callback. -/
def createHandle (svc : Service) : Handle :=
  { phase := .waiting
    err := none
    shutdownErr := none
    shutdownConsumed := false
    exitClosed := false
    shutdownFunc := some svc.Shutdown }

/-- `createErrorHandle`: an already-terminated handle for a context
construction failure: error pre-set, shutdown gate pre-consumed by a
no-op `Do`, `exitSig` closed, `shutdownFunc` left nil. -/
def createErrorHandle (e : Err) : Handle :=
  { phase := .waiting
    err := some e
    shutdownErr := none
    shutdownConsumed := true
    exitClosed := true
    shutdownFunc := none }

/-- Everything observable about one `runBlocking` execution: the handle
state when `runBlocking` stopped (by returning or by blocking forever),
the value it returned (or `blocked`), which service callbacks were
invoked, and the phases it set on the handle in order. -/
structure RunResult where
  handle : Handle
  outcome : Outcome (Option Err)
  initInvoked : Bool
  runInvoked : Bool
  sdInvoked : Bool
  trace : List Phase
deriving DecidableEq, Repr

/-- `runBlocking` (src/run.go lines 183-215): set `Initializing`, call
`Initialize` (return its error early when non-nil); set `Running`, call
`Run` (return its error early when non-nil); set `ShuttingDown`, call
`handle.Shutdown(ctx)`; set the terminal phase from the value that call
returned, then return it (the local run error is nil at that point).
`none` models the panic of a nil `shutdownFunc`. -/
def runBlocking (svc : Service) (h0 : Handle) : Option RunResult :=
  let h1 : Handle := { h0 with phase := .initializing }
  match svc.Initialize with
  | some e => some ⟨h1, .done (some e), true, false, false, [.initializing]⟩
  | none =>
    let h2 : Handle := { h1 with phase := .running }
    match svc.Run with
    | some e => some ⟨h2, .done (some e), true, true, false, [.initializing, .running]⟩
    | none =>
      let h3 : Handle := { h2 with phase := .shuttingDown }
      match h3.Shutdown with
      | none => none
      | some (h4, invoked, out) =>
        match out with
        | .blocked =>
          some ⟨h4, .blocked, true, true, invoked, [.initializing, .running, .shuttingDown]⟩
        | .done sdErr =>
          let term : Phase := if sdErr.isSome then .failed else .finished
          let h5 : Handle := { h4 with phase := term }
          some ⟨h5, .done sdErr, true, true, invoked,
            [.initializing, .running, .shuttingDown, term]⟩

/-- Observable result of `run` for one service: the final handle state,
callback invocation flags, the phase trace, and the value the lifecycle
goroutine returned to the error group (`none` when the goroutine never
returns). -/
structure RunHandleResult where
  handle : Handle
  initInvoked : Bool
  runInvoked : Bool
  sdInvoked : Bool
  trace : List Phase
  goroutineExit : Option (Option Err)
deriving DecidableEq, Repr

/-- `run` (src/run.go lines 166-181): build the execution context
(`ctxErr` is the error `createContext` returns, `none` on success). On
failure, return `createErrorHandle` without scheduling anything. On
success, create a handle and run the goroutine
`svcErr := runBlocking(...); handle.setStopped(svcErr); return svcErr`.
If `runBlocking` blocks forever, `setStopped` never runs and the
goroutine never returns. -/
def run (ctxErr : Option Err) (svc : Service) : Option RunHandleResult :=
  match ctxErr with
  | some e => some ⟨createErrorHandle e, false, false, false, [], none⟩
  | none =>
    match runBlocking svc (createHandle svc) with
    | none => none
    | some rb =>
      match rb.outcome with
      | .blocked => some ⟨rb.handle, rb.initInvoked, rb.runInvoked, rb.sdInvoked, rb.trace, none⟩
      | .done v =>
        some ⟨rb.handle.setStopped v, rb.initInvoked, rb.runInvoked, rb.sdInvoked, rb.trace, some v⟩

/-- State of an `errgroup.Group` created with `errgroup.WithContext`:
whether the `errOnce` gate has fired and how many times the derived
context's cancel function has been called by the group. -/
structure EgState where
  errConsumed : Bool
  cancelCount : Nat
deriving DecidableEq, Repr

/-- One goroutine returning value `v` to the error group: `errgroup.Go`
runs `if err != nil { g.errOnce.Do(func() { g.cancel(...) }) }`, so the
derived context is cancelled exactly when `v` is the first non-nil
return. -/
def egStep (s : EgState) (v : Option Err) : EgState :=
  if v.isSome && !s.errConsumed then ⟨true, s.cancelCount + 1⟩ else s

/-- The error-group state after a temporal sequence of goroutine
returns (`g.Wait()` is never called by the orchestrator, so these are
the only cancel sites). -/
def egRun (exits : List (Option Err)) : EgState :=
  exits.foldl egStep ⟨false, 0⟩

/-- The value a service's lifecycle goroutine returns to the error
group, `none` when the goroutine never returns (context-construction
failure schedules no goroutine; a blocked `runBlocking` never returns). -/
def lifecycleExit (ctxErr : Option Err) (svc : Service) : Option (Option Err) :=
  (run ctxErr svc).bind RunHandleResult.goroutineExit

/-- The temporal sequence of goroutine returns of a group of services,
taking the list order as the order in which lifecycles terminate
(the list is quantified over, so every temporal order is covered). -/
def groupExits (svcs : List Service) : List (Option Err) :=
  svcs.filterMap (lifecycleExit none)

/-- Whether the context a service's callbacks observe is cancelled:
its execution context derives from the error group's context when
`grouped` (`RunGroup`), else directly from the base context
(`RunParallel`); value-wrapping (`createContext`) adds no cancellation. -/
def derivedCtxCancelled (grouped baseCancelled : Bool) (exits : List (Option Err)) : Bool :=
  baseCancelled || (grouped && (egRun exits).errConsumed)

/-- `runAll` (src/run.go lines 149-161): one `run` per service, each
paired with the error its `createContext` call produces. The handles
returned are exactly the per-service `run` results, in order. -/
def runAll (grouped : Bool) (svcs : List (Option Err × Service)) : List (Option RunHandleResult) :=
  svcs.map (fun p => run p.1 p.2)

/-- A sequence of `n` consecutive `Handle.Shutdown` calls (Go callers
may be concurrent; `sync.Once` plus the final `Wait` make every
interleaving equivalent to a sequence). Returns the final handle, the
value each call returned in order, and how many of the calls invoked
the underlying shutdown callback; `none` when some call panicked. -/
def shutdownCalls (h : Handle) : Nat → Option (Handle × List (Outcome (Option Err)) × Nat)
  | 0 => some (h, [], 0)
  | n + 1 =>
    match h.Shutdown with
    | none => none
    | some (h', invoked, out) =>
      (shutdownCalls h' n).map
        (fun r => (r.1, out :: r.2.1, (if invoked then 1 else 0) + r.2.2))

/-- The phases a handle takes on during one orchestrated run of a
service, beginning with the `Waiting` phase the handle is created in. -/
def lifecycleTrace (svc : Service) : List Phase :=
  match run none svc with
  | some r => Phase.waiting :: r.trace
  | none => []

/-- Whether a list of phases is strictly ascending in traversal order. -/
def strictAscending : List Phase → Bool
  | a :: b :: rest => decide (a.idx < b.idx) && strictAscending (b :: rest)
  | _ => true

/-- Whether a character may appear in a normalized environment variable
name: an uppercase ASCII letter, an ASCII digit, or an underscore (the
complement of the regexp class replaced by `NormalizeEnvName`). -/
def isEnvChar (c : Char) : Bool :=
  (decide ('A' ≤ c) && decide (c ≤ 'Z')) ||
  (decide ('0' ≤ c) && decide (c ≤ '9')) || decide (c = '_')

/-- Whether a character is an ASCII digit (`c >= '0' && c <= '9'`). -/
def isDigitChar (c : Char) : Bool :=
  decide ('0' ≤ c) && decide (c ≤ '9')

/-- Step 2 of `NormalizeEnvName`: the regexp replacement
`[^A-Z0-9_]` → `_`, one underscore per non-matching character. -/
def replaceInvalid (l : List Char) : List Char :=
  l.map (fun c => if isEnvChar c then c else '_')

/-- Step 3 of `NormalizeEnvName`, worker: the regexp replacement
`_+` → `_`; the flag records whether we are inside an underscore run
whose first underscore has already been emitted. -/
def collapseGo (inRun : Bool) : List Char → List Char
  | [] => []
  | c :: rest =>
    if c = '_' then
      if inRun then collapseGo true rest else '_' :: collapseGo true rest
    else c :: collapseGo false rest

/-- Step 3 of `NormalizeEnvName`: collapse consecutive underscores. -/
def collapseUnderscores (l : List Char) : List Char :=
  collapseGo false l

/-- Right half of step 4 of `NormalizeEnvName` (`strings.Trim` with
cutset `"_"`): remove every trailing underscore. -/
def trimRightU : List Char → List Char
  | [] => []
  | c :: rest =>
    if (trimRightU rest).isEmpty && c = '_' then [] else c :: trimRightU rest

/-- Step 4 of `NormalizeEnvName`: `strings.Trim(name, "_")`, removing
leading and trailing underscores. -/
def trimUnderscores (l : List Char) : List Char :=
  trimRightU (l.dropWhile (fun c => c = '_'))

/-- `NormalizeEnvName` (src/env.go lines 151-175): empty input is
returned as is; otherwise uppercase, replace invalid characters,
collapse underscore runs, trim underscores at both ends, and prepend an
underscore when the result starts with a digit. -/
def NormalizeEnvName (name : List Char) : List Char :=
  if name = [] then name
  else
    let replaced := replaceInvalid (name.map Char.toUpper)
    let trimmed := trimUnderscores (collapseUnderscores replaced)
    match trimmed with
    | c :: rest => if isDigitChar c then '_' :: c :: rest else c :: rest
    | [] => []

/-- `EnvName` (src/env.go lines 77-87): an empty first argument defaults
to `"SERVICE_"`, a first argument without a trailing underscore gets one
appended, and the concatenation is normalized. -/
def EnvName (pre : List Char) (name : List Char) : List Char :=
  let p := if pre = [] then "SERVICE_".toList
           else if pre.getLast? = some '_' then pre else pre ++ ['_']
  NormalizeEnvName (p ++ name)

/-- Whether a character list contains two consecutive underscores,
checked pairwise through the head of the tail. -/
def noConsecU : List Char → Bool
  | [] => true
  | a :: l => !(decide (a = '_') && decide (l.head? = some '_')) && noConsecU l

/-- Whether a character list ends with an underscore. -/
def endsWithU (l : List Char) : Bool :=
  decide (l.getLast? = some '_')

/-- Whether a character list starts with an ASCII digit. -/
def startsWithDigit (l : List Char) : Bool :=
  match l.head? with
  | some c => isDigitChar c
  | none => false

/-- Once the shutdown gate is consumed, any number of further
`Handle.Shutdown` calls leave the handle unchanged, invoke nothing, and
each return the handle's `Wait` value. -/
theorem shutdownCalls_consumed (h : Handle) (hc : h.shutdownConsumed = true) (n : Nat) :
    shutdownCalls h n = some (h, List.replicate n h.Wait, 0) := by
  induction n with
  | zero => rfl
  | succ n ih =>
    have hs : h.Shutdown = some (h, false, h.Wait) := by
      unfold Handle.Shutdown
      rw [hc]
      simp
    simp [shutdownCalls, hs, ih, List.replicate_succ]

/-- A lifecycle goroutine that terminates always hands the error group a
non-nil error: the all-successful path blocks forever inside the
internal `Handle.Shutdown` call and never returns at all. -/
theorem lifecycleExit_isSome {svc : Service} {v : Option Err}
    (h : lifecycleExit none svc = some v) : v.isSome = true := by
  obtain ⟨i, r, s⟩ := svc
  cases i with
  | some e =>
    have : lifecycleExit none ⟨some e, r, s⟩ = some (some e) := rfl
    rw [this] at h
    cases h
    rfl
  | none =>
    cases r with
    | some e =>
      have : lifecycleExit none ⟨none, some e, s⟩ = some (some e) := rfl
      rw [this] at h
      cases h
      rfl
    | none =>
      have : lifecycleExit none ⟨none, none, s⟩ = none := rfl
      rw [this] at h
      cases h

/-- Every value in a group's exit sequence is a non-nil error. -/
theorem groupExits_all_isSome (svcs : List Service) :
    (groupExits svcs).all Option.isSome = true := by
  induction svcs with
  | nil => rfl
  | cons s t ih =>
    unfold groupExits at ih ⊢
    rw [List.filterMap_cons]
    cases hv : lifecycleExit none s with
    | none => exact ih
    | some v =>
      rw [List.all_cons, ih, lifecycleExit_isSome hv]
      rfl

/-- Folding further goroutine returns after the `errOnce` gate has fired
changes nothing. -/
theorem egRun_consumed (t : List (Option Err)) (c : Nat) :
    List.foldl egStep ⟨true, c⟩ t = ⟨true, c⟩ := by
  induction t with
  | nil => rfl
  | cons v t ih =>
    have : egStep ⟨true, c⟩ v = ⟨true, c⟩ := by
      unfold egStep
      simp
    rw [List.foldl_cons, this, ih]

/-- Every character of a `replaceInvalid` output is a valid environment
variable name character. -/
theorem replaceInvalid_all (l : List Char) :
    (replaceInvalid l).all isEnvChar = true := by
  induction l with
  | nil => rfl
  | cons c rest ih =>
    simp only [replaceInvalid, List.map_cons, List.all_cons, Bool.and_eq_true] at ih ⊢
    refine ⟨?_, ih⟩
    by_cases hc : isEnvChar c = true
    · simp [hc]
    · simp only [hc, Bool.false_eq_true, if_false]
      decide

/-- `collapseGo` preserves a character predicate satisfied by the
underscore. -/
theorem collapseGo_all (p : Char → Bool) (hp : p '_' = true) (l : List Char)
    (h : l.all p = true) : ∀ b, (collapseGo b l).all p = true := by
  induction l with
  | nil => intro b; rfl
  | cons c rest ih =>
    rw [List.all_cons, Bool.and_eq_true] at h
    intro b
    by_cases hc : c = '_'
    · cases b with
      | true => simpa [collapseGo, hc] using ih h.2 true
      | false => simp [collapseGo, hc, hp, ih h.2 true]
    · simp [collapseGo, hc, h.1, ih h.2 false]

/-- The output of `collapseGo true` never starts with an underscore. -/
theorem collapseGo_true_head (l : List Char) :
    ¬ ((collapseGo true l).head? = some '_') := by
  induction l with
  | nil => simp [collapseGo]
  | cons c rest ih =>
    by_cases hc : c = '_'
    · simpa [collapseGo, hc] using ih
    · simp [collapseGo, hc]

/-- The output of `collapseGo` never contains two consecutive
underscores. -/
theorem collapseGo_noConsec (l : List Char) :
    ∀ b, noConsecU (collapseGo b l) = true := by
  induction l with
  | nil => intro b; rfl
  | cons c rest ih =>
    intro b
    by_cases hc : c = '_'
    · cases b with
      | true => simpa [collapseGo, hc] using ih true
      | false => simp [collapseGo, hc, noConsecU, ih true, collapseGo_true_head rest]
    · simp [collapseGo, hc, noConsecU, ih false]

/-- `dropWhile` preserves `List.all`. -/
theorem dropWhile_all (p q : Char → Bool) (l : List Char) (h : l.all p = true) :
    (l.dropWhile q).all p = true := by
  induction l with
  | nil => exact h
  | cons c rest ih =>
    rw [List.all_cons, Bool.and_eq_true] at h
    by_cases hq : q c = true
    · simpa [List.dropWhile_cons, hq] using ih h.2
    · simp [List.dropWhile_cons, hq, List.all_cons, h.1, h.2]

/-- `dropWhile` preserves the absence of consecutive underscores. -/
theorem dropWhile_noConsec (q : Char → Bool) (l : List Char)
    (h : noConsecU l = true) : noConsecU (l.dropWhile q) = true := by
  induction l with
  | nil => exact h
  | cons c rest ih =>
    simp only [noConsecU, Bool.and_eq_true] at h
    by_cases hq : q c = true
    · simpa [List.dropWhile_cons, hq] using ih h.2
    · simpa [List.dropWhile_cons, hq, noConsecU, Bool.and_eq_true] using h

/-- The first character surviving `dropWhile` fails the predicate. -/
theorem dropWhile_head_not (q : Char → Bool) (l : List Char) (c : Char)
    (h : (l.dropWhile q).head? = some c) : q c = false := by
  induction l with
  | nil => cases h
  | cons a rest ih =>
    by_cases hq : q a = true
    · rw [List.dropWhile_cons, if_pos hq] at h
      exact ih h
    · rw [List.dropWhile_cons, if_neg hq] at h
      simp only [List.head?_cons, Option.some.injEq] at h
      subst h
      simpa using hq

/-- `trimRightU` either empties the list or keeps its first element. -/
theorem trimRightU_head (l : List Char) :
    trimRightU l = [] ∨ (trimRightU l).head? = l.head? := by
  cases l with
  | nil => exact Or.inl rfl
  | cons c rest =>
    simp only [trimRightU]
    split
    · exact Or.inl rfl
    · exact Or.inr (by simp)

/-- The output of `trimRightU` never ends with an underscore. -/
theorem trimRightU_last (l : List Char) :
    ¬ ((trimRightU l).getLast? = some '_') := by
  induction l with
  | nil => simp [trimRightU]
  | cons c rest ih =>
    simp only [trimRightU]
    split
    · simp
    · rename_i hcond
      cases hr : trimRightU rest with
      | nil =>
        rw [hr] at hcond
        simp only [List.isEmpty_nil, Bool.true_and, decide_eq_true_eq] at hcond
        simp only [List.getLast?_singleton, Option.some.injEq]
        exact hcond
      | cons x xs =>
        rw [hr] at ih
        rw [List.getLast?_cons_cons]
        exact ih

/-- `trimRightU` preserves `List.all`. -/
theorem trimRightU_all (p : Char → Bool) (l : List Char) (h : l.all p = true) :
    (trimRightU l).all p = true := by
  induction l with
  | nil => exact h
  | cons c rest ih =>
    rw [List.all_cons, Bool.and_eq_true] at h
    simp only [trimRightU]
    split
    · rfl
    · simp [List.all_cons, h.1, ih h.2]

/-- `trimRightU` preserves the absence of consecutive underscores. -/
theorem trimRightU_noConsec (l : List Char) (h : noConsecU l = true) :
    noConsecU (trimRightU l) = true := by
  induction l with
  | nil => exact h
  | cons c rest ih =>
    simp only [noConsecU, Bool.and_eq_true] at h
    simp only [trimRightU]
    split
    · rfl
    · simp only [noConsecU, Bool.and_eq_true]
      refine ⟨?_, ih h.2⟩
      rcases trimRightU_head rest with he | hh
      · simp [he]
      · rw [hh]
        exact h.1

/-- An ASCII digit is not an underscore. -/
theorem isDigitChar_ne_underscore (c : Char) (h : isDigitChar c = true) :
    ¬ (c = '_') := by
  intro hc
  subst hc
  exact absurd h (by decide)

/-- The output of `NormalizeEnvName` contains only uppercase ASCII
letters, digits and underscores, has no two consecutive underscores,
does not end with an underscore, and does not start with a digit. -/
theorem normalizeEnvName_props (l : List Char) :
    (NormalizeEnvName l).all isEnvChar = true ∧
    noConsecU (NormalizeEnvName l) = true ∧
    endsWithU (NormalizeEnvName l) = false ∧
    startsWithDigit (NormalizeEnvName l) = false := by
  by_cases hl : l = []
  · subst hl
    exact ⟨rfl, rfl, rfl, rfl⟩
  · have hall : (trimRightU ((collapseUnderscores
        (replaceInvalid (l.map Char.toUpper))).dropWhile
          (fun c => c = '_'))).all isEnvChar = true :=
      trimRightU_all _ _ (dropWhile_all _ _ _
        (collapseGo_all _ (by decide) _ (replaceInvalid_all _) false))
    have hnc : noConsecU (trimRightU ((collapseUnderscores
        (replaceInvalid (l.map Char.toUpper))).dropWhile
          (fun c => c = '_'))) = true :=
      trimRightU_noConsec _ (dropWhile_noConsec _ _ (collapseGo_noConsec _ false))
    have hlast : ¬ ((trimRightU ((collapseUnderscores
        (replaceInvalid (l.map Char.toUpper))).dropWhile
          (fun c => c = '_'))).getLast? = some '_') :=
      trimRightU_last _
    cases ht : trimRightU ((collapseUnderscores
        (replaceInvalid (l.map Char.toUpper))).dropWhile (fun c => c = '_')) with
    | nil =>
      have hev : NormalizeEnvName l = [] := by
        simp [NormalizeEnvName, trimUnderscores, hl, ht]
      rw [hev]
      exact ⟨rfl, rfl, rfl, rfl⟩
    | cons c rest =>
      have hev : NormalizeEnvName l =
          if isDigitChar c then '_' :: c :: rest else c :: rest := by
        simp [NormalizeEnvName, trimUnderscores, hl, ht]
      rw [ht] at hall hnc hlast
      have hcu : ¬ (c = '_') := by
        rcases trimRightU_head ((collapseUnderscores
            (replaceInvalid (l.map Char.toUpper))).dropWhile (fun x => x = '_')) with he | hh
        · rw [ht] at he
          simp at he
        · rw [ht] at hh
          simp only [List.head?_cons] at hh
          have := dropWhile_head_not (fun x => decide (x = '_')) _ c hh.symm
          simpa using this
      by_cases hd : isDigitChar c = true
      · rw [hev, if_pos hd]
        refine ⟨?_, ?_, ?_, ?_⟩
        · rw [List.all_cons, hall]
          decide
        · have hnc2 := hnc
          simp only [noConsecU, Bool.and_eq_true] at hnc2
          simp [noConsecU, hcu, hnc2.1, hnc2.2]
        · simp only [endsWithU, List.getLast?_cons_cons, decide_eq_false_iff_not]
          exact hlast
        · exact (by decide : isDigitChar '_' = false)
      · rw [hev, if_neg hd]
        refine ⟨hall, hnc, ?_, ?_⟩
        · simp only [endsWithU, decide_eq_false_iff_not]
          exact hlast
        · exact (by simpa using hd : isDigitChar c = false)

/-- C1: the claim says that for a Service whose Initialize, Run and
Shutdown all return nil, `Handle.Wait()` terminates with nil and the
phase ends `Finished`. The code instead deadlocks: `runBlocking` calls
`handle.Shutdown(ctx)` after a successful Run, that call ends in
`h.Wait()`, and `exitSig` is only closed by `setStopped` after
`runBlocking` returns — so the goroutine never returns, `Wait` blocks
forever, and the phase is stuck at `ShuttingDown` (the shutdown callback
itself was invoked before blocking). -/
theorem c1_success_path_deadlocks :
    (run none ⟨none, none, none⟩).map
      (fun r => (r.goroutineExit, r.handle.Wait, r.handle.phase, r.sdInvoked)) =
    some (none, Outcome.blocked, Phase.shuttingDown, true) := by decide

/-- C2 counterexample: for a Service whose Initialize fails, the claim
says the Shutdown callback is still invoked and the phase ends
`PhaseFailed`; on the code neither holds (shutdown is skipped and the
phase stays `PhaseInitializing`). -/
theorem c2_counterexample :
    ¬ ((run none ⟨some (.msg "init"), none, some (.msg "sd")⟩).map
        (fun r => (r.sdInvoked, r.handle.phase)) =
      some (true, Phase.failed)) := by decide

/-- C2 amended: for every Service whose Initialize returns a non-nil
error E, Run is never invoked, the Shutdown callback is also never
invoked, the phase remains `PhaseInitializing` (no terminal phase is
set), and the Handle records E: `Error() == E` and `Wait()` returns E. -/
theorem c2_init_error_aborts_run (e : Err) (rn sd : Option Err) :
    (run none ⟨some e, rn, sd⟩).map
      (fun r => (r.runInvoked, r.sdInvoked, r.handle.phase, r.handle.err, r.handle.Wait)) =
    some (false, false, Phase.initializing, some e, .done (some e)) := rfl

/-- C3: the claim says the Shutdown callback is still invoked after a
run failure and the run error is combined with any shutdown error. The
code returns the run error immediately, skipping the shutdown step
entirely (leaving the error-combining branch of `runBlocking`
unreachable): the shutdown callback is not invoked, no shutdown error is
recorded, and `Wait` yields the run error alone. -/
theorem c3_run_error_skips_shutdown :
    (run none ⟨none, some (.msg "boom"), some (.msg "cleanup")⟩).map
      (fun r => (r.sdInvoked, r.goroutineExit, r.handle.Wait, r.handle.shutdownErr)) =
    some (false, some (some (.msg "boom")), .done (some (.msg "boom")), none) := by decide

/-- C4: in a grouped run, every lifecycle goroutine that terminates
hands the error group a non-nil error (a fully successful lifecycle
never returns), the derived context's cancel function runs exactly once
as soon as any sibling terminates and never otherwise, and the group's
cancellation state is already determined by the first terminal exit
alone — so the first terminating sibling triggers the single
cancellation, whatever its outcome. -/
theorem c4_group_cancelled_on_first_exit (svcs : List Service) :
    (groupExits svcs).all Option.isSome = true ∧
    (egRun (groupExits svcs)).cancelCount = (if (groupExits svcs).isEmpty then 0 else 1) ∧
    egRun (groupExits svcs) = egRun ((groupExits svcs).take 1) := by
  refine ⟨groupExits_all_isSome svcs, ?_, ?_⟩ <;>
  · cases hg : groupExits svcs with
    | nil => simp [egRun]
    | cons v t =>
      have hall := groupExits_all_isSome svcs
      rw [hg, List.all_cons] at hall
      have hv : v.isSome = true := by
        cases hvs : v.isSome
        · rw [hvs] at hall; exact absurd hall (by simp)
        · rfl
      have hstep : egStep ⟨false, 0⟩ v = ⟨true, 1⟩ := by
        unfold egStep
        rw [hv]
        rfl
      simp [egRun, hstep, egRun_consumed]

/-- C5: starting from any handle whose shutdown gate is still open and
whose shutdown callback returns `r`, any sequence of N ≥ 1
`Handle.Shutdown` calls invokes the underlying callback exactly once,
leaves the handle in the single post-callback state (the callback's
error recorded only when non-nil), and every one of the N calls returns
exactly that handle's `Wait` value. -/
theorem c5_shutdown_idempotent (ph : Phase) (e se : Option Err) (ec : Bool)
    (r : Option Err) (n : Nat) :
    shutdownCalls ⟨ph, e, se, false, ec, some r⟩ (n + 1) =
    some (⟨ph, e, r.or se, true, ec, some r⟩,
      List.replicate (n + 1) (Handle.Wait ⟨ph, e, r.or se, true, ec, some r⟩), 1) := by
  have hstep : Handle.Shutdown ⟨ph, e, se, false, ec, some r⟩ =
      some (⟨ph, e, r.or se, true, ec, some r⟩, true,
        Handle.Wait ⟨ph, e, r.or se, true, ec, some r⟩) := by
    cases r <;> rfl
  have hrest := shutdownCalls_consumed ⟨ph, e, r.or se, true, ec, some r⟩ rfl n
  simp [shutdownCalls, hstep, hrest, List.replicate_succ]

/-- C6: when execution-context construction fails with error E, `run`
returns the synthesized error handle without invoking any of the
Service's callbacks and without scheduling a goroutine; that handle's
exit signal is already closed, so `Wait` immediately returns E. -/
theorem c6_context_failure_error_handle (e : Err) (svc : Service) :
    run (some e) svc = some ⟨createErrorHandle e, false, false, false, [], none⟩ ∧
    (createErrorHandle e).exitClosed = true ∧
    (createErrorHandle e).Wait = .done (some e) := ⟨rfl, rfl, rfl⟩

/-- C7: over one orchestrated run of any Service, the sequence of phases
the handle takes on (starting from `Waiting`) is strictly ascending in
the order Waiting, Initializing, Running, ShuttingDown, terminal;
at most one terminal phase occurs, and never both `Finished` and
`Failed`. -/
theorem c7_phase_monotone (svc : Service) :
    strictAscending (lifecycleTrace svc) = true ∧
    (lifecycleTrace svc).countP (fun p => p.isTerminal) ≤ 1 ∧
    ((lifecycleTrace svc).contains .finished && (lifecycleTrace svc).contains .failed) = false := by
  obtain ⟨i, r, s⟩ := svc
  cases i <;> cases r <;> exact ⟨rfl, Nat.zero_le 1, rfl⟩

/-- C8: under `RunParallel` (grouped = false) a sibling's failure can
never cancel another service's context — the derived-context
cancellation bit ignores every sibling exit and equals the base
context's cancellation — and each service's run result is exactly its
own independent `run`, whatever the rest of the list contains. -/
theorem c8_parallel_no_sibling_cancellation (base : Bool)
    (exits exits' : List (Option Err)) (l : List (Option Err × Service)) (i : Nat) :
    derivedCtxCancelled false base exits = base ∧
    derivedCtxCancelled false base exits = derivedCtxCancelled false base exits' ∧
    (runAll false l)[i]? = (l[i]?).map (fun p => run p.1 p.2) := by
  refine ⟨by simp [derivedCtxCancelled], by simp [derivedCtxCancelled], ?_⟩
  simp [runAll]

/-- C9: calling `Shutdown` any number of times on a handle synthesized
for a context-construction failure is safe: no call panics on the nil
`shutdownFunc` (the one-shot gate was pre-consumed at construction), the
callback is invoked zero times, the handle is unchanged, and every call
returns the construction error. -/
theorem c9_error_handle_shutdown_safe (e : Err) (n : Nat) :
    shutdownCalls (createErrorHandle e) n =
    some (createErrorHandle e, List.replicate n (Outcome.done (some e)), 0) := by
  rw [shutdownCalls_consumed (createErrorHandle e) rfl]
  rfl

/-- C10: for every pair of character lists, `EnvName` returns a list
containing only uppercase ASCII letters, digits and underscores, with no
two consecutive underscores, no trailing underscore, and no leading
digit; and with an empty first argument it equals `NormalizeEnvName`
applied to `"SERVICE_"` followed by the name. -/
theorem c10_envname_normalized (pre nm : List Char) :
    (EnvName pre nm).all isEnvChar = true ∧
    noConsecU (EnvName pre nm) = true ∧
    endsWithU (EnvName pre nm) = false ∧
    startsWithDigit (EnvName pre nm) = false ∧
    EnvName [] nm = NormalizeEnvName ("SERVICE_".toList ++ nm) := by
  obtain ⟨h1, h2, h3, h4⟩ := normalizeEnvName_props
    ((if pre = [] then "SERVICE_".toList
      else if pre.getLast? = some '_' then pre else pre ++ ['_']) ++ nm)
  exact ⟨h1, h2, h3, h4, rfl⟩

end FlowSeer
